import Mathlib

set_option maxRecDepth 8000

/-!
A verification development for the core of the segmentio/errors-go package.

The Go source is shallowly embedded: the package's error variants become an
inductive type, the package functions become Lean functions over it, and the
global adapter registry and the runtime stack captures — the only ambient
state the code touches — are passed as explicit arguments.  Nil `error`
interface values are `Option.none` at every point where Go allows them;
struct fields that the builders guarantee non-nil hold the payload directly.
-/

namespace ErrorsGo

/-- Tag is a key/value type used to represent a single error tag (tags.go). -/
structure Tag where
  name : String
  value : String
deriving DecidableEq, Repr

/-- T returns a Tag value with the given name and value (tags.go). -/
def T (name : String) (value : String) : Tag :=
  ⟨name, value⟩

/-- Frame models one captured call site after resolution.  In Go a Frame is a
program counter resolved lazily to (file, line, function name) by the runtime
(stack.go); the resolution is a platform lookup outside the core, so the model
carries the resolved data. -/
structure Frame where
  file : String
  line : Nat
  name : String
deriving DecidableEq, Repr

/-- StackTrace is a stack of Frames, innermost first (stack.go). -/
abbrev StackTrace := List Frame

/-- Go's string order: lexicographic byte comparison, which for UTF-8 agrees
with code-point order, modelled on the character list.  `sort.Strings` sorts
by this order (types.go sortTypes). -/
def strRel (a b : String) : Prop :=
  a.data ≤ b.data

instance : DecidableRel strRel := fun a b => by
  unfold strRel
  infer_instance

/-- sortTypes sorts type names (types.go).  Go uses an unspecified comparison
sort; since strRel is total, transitive and antisymmetric the sorted
permutation is unique, so insertion sort computes the same list. -/
def sortTypes (types : List String) : List String :=
  types.insertionSort strRel

/-- The (name, then value) order of tagsByNameAndValue.Less (tags.go). -/
def tagRel (a b : Tag) : Prop :=
  a.name.data < b.name.data ∨ (a.name = b.name ∧ a.value.data ≤ b.value.data)

instance : DecidableRel tagRel := fun a b => by
  unfold tagRel
  infer_instance

/-- sortTags sorts tags by name then value (tags.go).  As with sortTypes, ties
under tagRel are equal Tag values, so the sorted list is unique and insertion
sort matches Go's sort. -/
def sortTags (tags : List Tag) : List Tag :=
  tags.insertionSort tagRel

/-- The deduplication loop of dedupeTypes (types.go): after sorting, keep each
element that differs from the previously kept one. -/
def dedupeAux (prev : String) : List String → List String
  | [] => []
  | y :: ys => if y = prev then dedupeAux prev ys else y :: dedupeAux y ys

/-- dedupeTypes sorts the list and keeps the first element of each run of
equal names; an empty input yields nil (types.go). -/
def dedupeTypes (types : List String) : List String :=
  match sortTypes types with
  | [] => []
  | x :: xs => x :: dedupeAux x xs

/-- copyTypes copies the slice (types.go); the copy holds the same values, so
in the model it is the identity. -/
def copyTypes (types : List String) : List String :=
  types

/-- copyTags copies the slice (tags.go); identity in the model. -/
def copyTags (tags : List Tag) : List Tag :=
  tags

/-- The error values the package can produce or observe.  The first eight
constructors are the package's own variants (part_007 and part_008 of the
source); `foreignError` models an error value from outside the package: its
rendered message, its zero-argument boolean methods as reflection finds them
(name/result pairs, names unique as Go method sets are), and its
`Cause() error` method — `none` when the method is absent, `some none` when
the method returns nil. -/
inductive GoErr where
  | baseError (msg : String) (stack : StackTrace)
  | multiError (errors : List GoErr)
  | errorWithMessage (cause : GoErr) (msg : String)
  | errorWithStack (cause : GoErr) (stack : StackTrace)
  | errorWithTypes (cause : GoErr) (types : List String)
  | errorWithTags (cause : GoErr) (tags : List Tag)
  | errorTODO
  | errorValue (msg : String) (causes : List GoErr) (types : List String)
      (tags : List Tag) (stack : StackTrace)
  | foreignError (msg : String) (preds : List (String × Bool))
      (causeMethod : Option (Option GoErr))

mutual

/-- The Error() method of each variant (part_007, part_008).  multiError joins
its causes' messages with "; "; errorWithMessage prefixes its cause's message;
stack/types/tags wrappers delegate; errorValue and baseError return their own
message; errorTODO returns "TODO". -/
def GoErr.Error : GoErr → String
  | .baseError msg _ => msg
  | .multiError errors => String.intercalate "; " (GoErr.errorList errors)
  | .errorWithMessage cause msg => msg ++ ": " ++ cause.Error
  | .errorWithStack cause _ => cause.Error
  | .errorWithTypes cause _ => cause.Error
  | .errorWithTags cause _ => cause.Error
  | .errorTODO => "TODO"
  | .errorValue msg _ _ _ _ => msg
  | .foreignError msg _ _ => msg

/-- The Error strings of a list of errors, in order (multiError.Error). -/
def GoErr.errorList : List GoErr → List String
  | [] => []
  | e :: rest => e.Error :: GoErr.errorList rest

end

/-- message returns e.Message() when the variant implements errorMessage
(baseError, errorWithMessage, errorValue), else "" (part_007). -/
def message : GoErr → String
  | .baseError msg _ => msg
  | .errorWithMessage _ msg => msg
  | .errorValue msg _ _ _ _ => msg
  | _ => ""

/-- stackTrace returns e.StackTrace() when the variant implements
errorStackTrace (baseError, errorWithStack, errorValue), else nil (part_007). -/
def stackTrace : GoErr → StackTrace
  | .baseError _ stack => stack
  | .errorWithStack _ stack => stack
  | .errorValue _ _ _ _ stack => stack
  | _ => []

/-- The explicit Types() method: implemented by errorWithTypes and errorValue
only (part_007, part_008); none when the interface is absent. -/
def typesMethod : GoErr → Option (List String)
  | .errorWithTypes _ types => some types
  | .errorValue _ _ types _ _ => some types
  | _ => none

/-- The Tags() method: implemented by errorWithTags and errorValue only. -/
def tagsMethod : GoErr → Option (List Tag)
  | .errorWithTags _ tags => some tags
  | .errorValue _ _ _ tags _ => some tags
  | _ => none

/-- The names of e's zero-argument boolean methods that return true, as the
reflection loop of appendTypes (types.go) collects them.  None of the
package's own variants has a niladic boolean method, so only foreign errors
contribute.  Reflection enumerates methods in name order; every consumer
sorts or dedupes the collected list, so the list order here is as given. -/
def truePredNames : GoErr → List String
  | .foreignError _ preds _ => (preds.filter (fun p => p.2)).map (fun p => p.1)
  | _ => []

/-- appendTypes (types.go): the explicit Types() list, if the interface is
implemented, followed by the names of the true niladic boolean methods. -/
def appendTypes (types : List String) (e : GoErr) : List String :=
  types ++ ((typesMethod e).getD []) ++ truePredNames e

/-- appendTags (tags.go): append e.Tags() when implemented, then sort. -/
def appendTags (tags : List Tag) (e : GoErr) : List Tag :=
  sortTags (tags ++ ((tagsMethod e).getD []))

mutual

/-- walk (part_007) as a fold: apply f at the node, then recurse through the
single cause (errorCause case, checked first) or through every member of the
causes list (errorCauses case).  A foreign Cause() returning nil ends the
walk, as Go's `if err != nil` guard does. -/
def walkAcc {α : Type} (f : α → GoErr → α) (acc : α) (e : GoErr) : α :=
  match e with
  | .errorWithMessage cause m => walkAcc f (f acc (.errorWithMessage cause m)) cause
  | .errorWithStack cause s => walkAcc f (f acc (.errorWithStack cause s)) cause
  | .errorWithTypes cause ts => walkAcc f (f acc (.errorWithTypes cause ts)) cause
  | .errorWithTags cause ts => walkAcc f (f acc (.errorWithTags cause ts)) cause
  | .foreignError m p (some (some cause)) =>
      walkAcc f (f acc (.foreignError m p (some (some cause)))) cause
  | .multiError errors => walkAccList f (f acc (.multiError errors)) errors
  | .errorValue m cs ts tgs st => walkAccList f (f acc (.errorValue m cs ts tgs st)) cs
  | e => f acc e

/-- walk over each member of a causes list, left to right. -/
def walkAccList {α : Type} (f : α → GoErr → α) (acc : α) : List GoErr → α
  | [] => acc
  | c :: rest => walkAccList f (walkAcc f acc c) rest

end

/-- deepAppendTypes (types.go): walk the whole cause graph collecting explicit
type lists and true predicate names, then dedupe.  A nil error walks nothing. -/
def deepAppendTypes (types : List String) : Option GoErr → List String
  | none => dedupeTypes types
  | some e => dedupeTypes (walkAcc appendTypes types e)

/-- Types returns all the types implemented by err and its causes (part_007). -/
def Types (err : Option GoErr) : List String :=
  deepAppendTypes [] err

/-- deepAppendTags (tags.go): walk the whole cause graph collecting tag lists;
appendTags sorts at each step, so the result is sorted and not deduplicated. -/
def deepAppendTags (tags : List Tag) : Option GoErr → List Tag
  | none => tags
  | some e => walkAcc appendTags tags e

/-- Tags returns all the tags set on err and its causes (part_007). -/
def Tags (err : Option GoErr) : List Tag :=
  deepAppendTags [] err

/-- An adapter.  Go's Adapter.Adapt(err) returns (error, bool); the model uses
Option, some meaning recognized (adapter.go). -/
def Adapter := GoErr → Option GoErr

/-- The scan of adapterStore.adapt over the registered adapters, in
registration order: the first adapter that recognizes the error determines
the result and the loop breaks (adapter.go).  The store is global mutable
state in Go, grown only by Register; the model passes the registered list
explicitly in registration order. -/
def adapt : List Adapter → GoErr → GoErr
  | [], e => e
  | a :: rest, e =>
    match a e with
    | some adapted => adapted
    | none => adapt rest e

/-- The type switch of Adapt's fast path (adapter.go): true exactly for the
package's own variants. -/
def GoErr.isInternal : GoErr → Bool
  | .foreignError _ _ _ => false
  | _ => true

/-- Adapt on a non-nil error: internal variants return unchanged without
scanning the registry; others go through the registered adapters. -/
def adapt1 (reg : List Adapter) (e : GoErr) : GoErr :=
  if e.isInternal then e else adapt reg e

/-- Adapt (adapter.go).  A nil error falls through the type switch and the
store's nil guard and comes back nil. -/
def Adapt (reg : List Adapter) : Option GoErr → Option GoErr
  | none => none
  | some e => some (adapt1 reg e)

/-- New (part_007): a baseError carrying the message and the stack trace that
Go captures at the call site; the capture is an input of the model. -/
def New (msg : String) (captured : StackTrace) : GoErr :=
  .baseError msg captured

/-- Errorf (part_007): like New with msg the fmt.Sprintf result; the model
receives the formatted string. -/
def Errorf (msg : String) (captured : StackTrace) : GoErr :=
  .baseError msg captured

/-- WithMessage (part_007): nil in, nil out; otherwise wrap the adapted error. -/
def WithMessage (reg : List Adapter) (err : Option GoErr) (msg : String) : Option GoErr :=
  match err with
  | none => none
  | some e => some (.errorWithMessage (adapt1 reg e) msg)

/-- WithStackTrace (part_007): nil in, nil out; otherwise wrap the adapted
error with the given stack trace. -/
def WithStackTrace (reg : List Adapter) (err : Option GoErr) (stack : StackTrace) :
    Option GoErr :=
  match err with
  | none => none
  | some e => some (.errorWithStack (adapt1 reg e) stack)

/-- WithStack (part_007) captures the caller's stack and defers to
WithStackTrace; the capture is an input of the model. -/
def WithStack (reg : List Adapter) (err : Option GoErr) (captured : StackTrace) :
    Option GoErr :=
  WithStackTrace reg err captured

/-- WithTypes (part_007): nil in, nil out; otherwise wrap the adapted error
with a copy of the given type list. -/
def WithTypes (reg : List Adapter) (err : Option GoErr) (types : List String) :
    Option GoErr :=
  match err with
  | none => none
  | some e => some (.errorWithTypes (adapt1 reg e) (copyTypes types))

/-- makeTags (tags.go): copy the literal tag list and sort it; nothing is
deduplicated here. -/
def makeTags (tags : List Tag) : List Tag :=
  sortTags (copyTags tags)

/-- WithTags (part_007): nil in, nil out; otherwise wrap the adapted error
with the sorted copy of the literal tag list. -/
def WithTags (reg : List Adapter) (err : Option GoErr) (tags : List Tag) : Option GoErr :=
  match err with
  | none => none
  | some e => some (.errorWithTags (adapt1 reg e) (makeTags tags))

/-- wrap (part_007): an errorWithMessage over an errorWithStack over the
adapted error; the depth parameter only selects the capture skip, which is
absorbed into the captured input. -/
def wrap (reg : List Adapter) (err : Option GoErr) (captured : StackTrace) (msg : String) :
    Option GoErr :=
  match err with
  | none => none
  | some e => some (.errorWithMessage (.errorWithStack (adapt1 reg e) captured) msg)

/-- Wrap (part_007). -/
def Wrap (reg : List Adapter) (err : Option GoErr) (msg : String) (captured : StackTrace) :
    Option GoErr :=
  wrap reg err captured msg

/-- Wrapf (part_007): like Wrap with msg the fmt.Sprintf result. -/
def Wrapf (reg : List Adapter) (err : Option GoErr) (msg : String) (captured : StackTrace) :
    Option GoErr :=
  wrap reg err captured msg

/-- Join (part_007): strip nils, return nil when nothing survives, otherwise a
multiError over the adapted survivors in input order. -/
def Join (reg : List Adapter) (errs : List (Option GoErr)) : Option GoErr :=
  let nonNil := errs.filterMap id
  if nonNil.isEmpty then none
  else some (.multiError (nonNil.map (adapt1 reg)))

/-- Recv (part_007) drains the channel until it is closed and combines what it
received; the delivered sequence is the model input (spec §5: draining is the
core's only suspension point).  Nils are ignored and survivors adapted in
receive order. -/
def Recv (reg : List Adapter) (received : List (Option GoErr)) : Option GoErr :=
  let errs := (received.filterMap id).map (adapt1 reg)
  if errs.isEmpty then none
  else some (.multiError errs)

/-- Cause (part_007): follow single-cause links while the current error
implements errorCause with a non-nil cause; internal wrappers always carry a
non-nil cause, a foreign Cause() may return nil, in which case the walker
stops at the node itself.  Go's Cause(nil) is nil; the claim range is non-nil
errors, modelled by GoErr directly. -/
def Cause : GoErr → GoErr
  | .errorWithMessage cause _ => Cause cause
  | .errorWithStack cause _ => Cause cause
  | .errorWithTypes cause _ => Cause cause
  | .errorWithTags cause _ => Cause cause
  | .foreignError _ _ (some (some cause)) => Cause cause
  | e => e

/-- The loop of Causes (part_007).  Go compares the current error against the
original by interface identity to decide between a one-element list and nil;
a followed cause is always a proper subterm of the original here (the
builders never create cyclic values, spec §3), so pointer inequality is
exactly the moved flag. -/
def causesLoop (moved : Bool) : GoErr → List GoErr
  | .multiError errors => errors
  | .errorValue _ causes _ _ _ => causes
  | .errorWithMessage cause _ => causesLoop true cause
  | .errorWithStack cause _ => causesLoop true cause
  | .errorWithTypes cause _ => causesLoop true cause
  | .errorWithTags cause _ => causesLoop true cause
  | .foreignError _ _ (some (some cause)) => causesLoop true cause
  | e => if moved then [e] else []

/-- Causes (part_007): the causes list of err, empty when err is nil or had
no causes. -/
def Causes : Option GoErr → List GoErr
  | none => []
  | some e => causesLoop false e

mutual

/-- Is (part_007).  At each node: membership of the explicit Types() list
first; then the reflection lookup of a zero-argument boolean method named typ,
whose result is returned as found — even when false, ending the search; then
recursion into the single cause (errorCause, checked first by the type
switch) or disjunction over the causes list (errorCauses).  A foreign
Cause() returning nil recurses into nil, which is false. -/
def isGo (typ : String) : GoErr → Bool
  | .baseError _ _ => false
  | .errorTODO => false
  | .multiError errors => isGoList typ errors
  | .errorValue _ causes types _ _ => types.contains typ || isGoList typ causes
  | .errorWithTypes cause types => types.contains typ || isGo typ cause
  | .errorWithMessage cause _ => isGo typ cause
  | .errorWithStack cause _ => isGo typ cause
  | .errorWithTags cause _ => isGo typ cause
  | .foreignError _ preds causeMethod =>
    match preds.find? (fun p => p.1 == typ) with
    | some p => p.2
    | none =>
      match causeMethod with
      | some (some cause) => isGo typ cause
      | _ => false

/-- The disjunction of Is over a causes list, short-circuiting on true. -/
def isGoList (typ : String) : List GoErr → Bool
  | [] => false
  | c :: rest => isGo typ c || isGoList typ rest

end

/-- Is (part_007): nil is of no type. -/
def Is (typ : String) : Option GoErr → Bool
  | none => false
  | some e => isGo typ e

/-- The five accumulators of inspect (part_007): messages, types, tags and
stack traces collected along the walked single-cause chain, and the causes
list of the multi-cause node that ended it, if any. -/
structure Inspection where
  msgs : List String
  types : List String
  tags : List Tag
  stackTraces : List StackTrace
  causes : List GoErr

/-- The empty accumulators inspect starts from. -/
def emptyIns : Inspection :=
  ⟨[], [], [], [], []⟩

/-- One iteration of inspect's loop body before its type switch (part_007):
collect the node's types and tags, its own message when non-empty, and its
stack trace when non-empty. -/
def inspectStep (ins : Inspection) (e : GoErr) : Inspection :=
  let types := appendTypes ins.types e
  let tags := appendTags ins.tags e
  let msgs := if (message e).length ≠ 0 then ins.msgs ++ [message e] else ins.msgs
  let stks := if (stackTrace e).length ≠ 0 then ins.stackTraces ++ [stackTrace e] else ins.stackTraces
  ⟨msgs, types, tags, stks, ins.causes⟩

/-- inspect's loop (part_007).  The type switch tries errorCauses first
(multiError, errorValue end the loop recording their causes), then
errorCause (the wrappers continue into their cause; a foreign Cause()
returning nil ends the loop), then errorMessage (baseError stops, its message
already collected), and by default appends e.Error() to the messages
(errorTODO and capability-less foreign errors). -/
def inspectLoop (ins : Inspection) : GoErr → Inspection
  | .errorWithMessage cause m =>
      inspectLoop (inspectStep ins (.errorWithMessage cause m)) cause
  | .errorWithStack cause s =>
      inspectLoop (inspectStep ins (.errorWithStack cause s)) cause
  | .errorWithTypes cause ts =>
      inspectLoop (inspectStep ins (.errorWithTypes cause ts)) cause
  | .errorWithTags cause ts =>
      inspectLoop (inspectStep ins (.errorWithTags cause ts)) cause
  | .foreignError m p (some (some cause)) =>
      inspectLoop (inspectStep ins (.foreignError m p (some (some cause)))) cause
  | .multiError errors =>
      let s := inspectStep ins (.multiError errors)
      ⟨s.msgs, s.types, s.tags, s.stackTraces, errors⟩
  | .errorValue m cs ts tgs st =>
      let s := inspectStep ins (.errorValue m cs ts tgs st)
      ⟨s.msgs, s.types, s.tags, s.stackTraces, cs⟩
  | .foreignError m p (some none) => inspectStep ins (.foreignError m p (some none))
  | .foreignError m p none =>
      let s := inspectStep ins (.foreignError m p none)
      ⟨s.msgs ++ [m], s.types, s.tags, s.stackTraces, s.causes⟩
  | .baseError m st => inspectStep ins (.baseError m st)
  | .errorTODO =>
      let s := inspectStep ins .errorTODO
      ⟨s.msgs ++ ["TODO"], s.types, s.tags, s.stackTraces, s.causes⟩

/-- inspect (part_007): run the loop from empty accumulators, then dedupe the
types and sort the tags. -/
def inspect (e : GoErr) : Inspection :=
  let ins := inspectLoop emptyIns e
  ⟨ins.msgs, dedupeTypes ins.types, sortTags ins.tags, ins.stackTraces, ins.causes⟩

/-- Value (part_008): the serializable snapshot of an error.  The Go Tags
field is a map[string]string; the model keeps the association list in
makeTagsMap's first-write-wins insertion order, and every consumer either
looks names up or sorts, so the unordered iteration of the Go map is
immaterial.  Recursive because of the causes list, hence an inductive with
explicit projections. -/
inductive Value where
  | mk (Message : String) (Tags : List Tag) (Types : List String)
      (Stack : List String) (Causes : List Value)

/-- The Message field of a Value. -/
def Value.Message : Value → String
  | .mk m _ _ _ _ => m

/-- The Tags field of a Value (the association list of the Go map). -/
def Value.Tags : Value → List Tag
  | .mk _ t _ _ _ => t

/-- The Types field of a Value. -/
def Value.Types : Value → List String
  | .mk _ _ t _ _ => t

/-- The Stack field of a Value: pre-rendered frame lines. -/
def Value.Stack : Value → List String
  | .mk _ _ _ s _ => s

/-- The Causes field of a Value. -/
def Value.Causes : Value → List Value
  | .mk _ _ _ _ c => c

/-- makeTagsMap (tags.go): build the name-to-value map keeping the first
value written for each name; modelled as an association list in insertion
order. -/
def makeTagsMap (tags : List Tag) : List Tag :=
  tags.foldl (fun m t => if m.any (fun u => u.name == t.name) then m else m ++ [t]) []

/-- makeTagsFromMap (tags.go): list the map entries and sort them; the Go
map's iteration order is immaterial because of the sort. -/
def makeTagsFromMap (m : List Tag) : List Tag :=
  sortTags m

/-- longFuncName (stack.go): drop everything through the last '/'. -/
def longFuncName (name : String) : String :=
  ⟨(name.data.reverse.takeWhile (fun c => c ≠ '/')).reverse⟩

/-- shortFuncName (stack.go): longFuncName, then drop through the first '.'
when one is present. -/
def shortFuncName (name : String) : String :=
  let l := (longFuncName name).data
  if l.contains '.' then ⟨(l.dropWhile (fun c => c ≠ '.')).drop 1⟩ else ⟨l⟩

/-- The frame rendering fmt.Sprintf("%+v:%n", f, f) used by ValueOf
(part_008; stack.go Frame.Format): full source path, line, short function
name, colon separated. -/
def frameString (f : Frame) : String :=
  f.file ++ ":" ++ Nat.repr f.line ++ ":" ++ shortFuncName f.name

/-- The tail of ValueOf's stack flattening: each further stack preceded by a
blank separator line (part_008). -/
def stackStringsRest : List StackTrace → List String
  | [] => []
  | s :: rest => "" :: (s.map frameString ++ stackStringsRest rest)

/-- ValueOf's stack flattening (part_008): the rendered frames of every
collected stack, consecutive stacks separated by one blank line. -/
def stackStrings : List StackTrace → List String
  | [] => []
  | s :: rest => s.map frameString ++ stackStringsRest rest

/-- Assemble a Value from collapsed chain data (part_008 ValueOf): messages
joined with ": ", first-write-wins tag map over the sorted tags, deduped
types, flattened stack lines, and the recursively snapshotted causes. -/
def valueFinish (ins : Inspection) (causes : List Value) : Value :=
  .mk (String.intercalate ": " ins.msgs) (makeTagsMap (sortTags ins.tags))
    (dedupeTypes ins.types) (stackStrings ins.stackTraces) causes

mutual

/-- ValueOf's work on a non-nil error (part_008).  The source calls inspect
and recurses into the returned causes; here the chain collapse is fused into
the recursion so that it is structural, with inspectLoop's accumulator: the
chain cases mirror inspectLoop exactly, and each loop exit builds the Value
from the same data inspect would return, snapshotting the recorded causes
recursively. -/
def valueLoop (ins : Inspection) : GoErr → Value
  | .errorWithMessage cause m =>
      valueLoop (inspectStep ins (.errorWithMessage cause m)) cause
  | .errorWithStack cause s =>
      valueLoop (inspectStep ins (.errorWithStack cause s)) cause
  | .errorWithTypes cause ts =>
      valueLoop (inspectStep ins (.errorWithTypes cause ts)) cause
  | .errorWithTags cause ts =>
      valueLoop (inspectStep ins (.errorWithTags cause ts)) cause
  | .foreignError m p (some (some cause)) =>
      valueLoop (inspectStep ins (.foreignError m p (some (some cause)))) cause
  | .multiError errors =>
      valueFinish (inspectStep ins (.multiError errors)) (valueOfList errors)
  | .errorValue m cs ts tgs st =>
      valueFinish (inspectStep ins (.errorValue m cs ts tgs st)) (valueOfList cs)
  | .foreignError m p (some none) =>
      valueFinish (inspectStep ins (.foreignError m p (some none))) []
  | .foreignError m p none =>
      let s := inspectStep ins (.foreignError m p none)
      valueFinish ⟨s.msgs ++ [m], s.types, s.tags, s.stackTraces, s.causes⟩ []
  | .baseError m st => valueFinish (inspectStep ins (.baseError m st)) []
  | .errorTODO =>
      let s := inspectStep ins .errorTODO
      valueFinish ⟨s.msgs ++ ["TODO"], s.types, s.tags, s.stackTraces, s.causes⟩ []

/-- ValueOf over each member of a causes list. -/
def valueOfList : List GoErr → List Value
  | [] => []
  | c :: rest => valueLoop emptyIns c :: valueOfList rest

end

/-- ValueOf (part_008): the zero Value for nil. -/
def ValueOf : Option GoErr → Value
  | none => .mk "" [] [] [] []
  | some e => valueLoop emptyIns e

/-- Value.IsNil (part_008): true exactly for the zero-value; the nil slices
and map of Go are the empty lists of the model. -/
def Value.IsNil (v : Value) : Bool :=
  v.Message == "" && v.Tags.isEmpty && v.Types.isEmpty && v.Stack.isEmpty && v.Causes.isEmpty

mutual

/-- Value.Err (part_008): nil for the zero-value; otherwise an errorValue
carrying the stored message, a copy of the types, the sorted tag-map entries,
the reconstructed causes, and a freshly captured local stack trace — the
capture is an input of the model, threaded to the nested reconstructions,
each of which Go captures during the same call. -/
def Value.Err (fresh : StackTrace) : Value → Option GoErr
  | .mk M Tg Ty St Cs =>
    if (Value.mk M Tg Ty St Cs).IsNil then none
    else some (.errorValue M (errList fresh Cs) (copyTypes Ty) (makeTagsFromMap Tg) fresh)

/-- The reconstruction of a causes list.  Go stores each child's possibly-nil
Err result in an []error slot; a nil entry arises only from a zero-valued
cause snapshot, and the model keeps the non-nil reconstructions. -/
def errList (fresh : StackTrace) : List Value → List GoErr
  | [] => []
  | v :: rest =>
    match Value.Err fresh v with
    | some e => e :: errList fresh rest
    | none => errList fresh rest

end

/-- formatterContext (format.go). -/
structure FmtCtx where
  index : Nat
  length : Nat
  needNewLine : Bool

/-- fctx.last() (format.go): !(index < length-1).  Go's length-1 is negative
only when length is 0, making the comparison false — exactly as with the
truncated Nat subtraction. -/
def FmtCtx.last (fctx : FmtCtx) : Bool :=
  !(decide (fctx.index < fctx.length - 1))

/-- The indent stack of continuation symbols (format.go). -/
structure Indent where
  symbols : List String

/-- indent.set (format.go): overwrite the last symbol when one exists. -/
def Indent.set (i : Indent) (s : String) : Indent :=
  if i.symbols.isEmpty then i else ⟨i.symbols.dropLast ++ [s]⟩

/-- indent.nextNode (format.go): the connector of a node's first line. -/
def Indent.nextNode (i : Indent) (fctx : FmtCtx) : Indent :=
  if fctx.last then i.set "└── " else i.set "├── "

/-- indent.nextLine (format.go): the continuation prefix of further lines. -/
def Indent.nextLine (i : Indent) (fctx : FmtCtx) : Indent :=
  if fctx.last then i.set "    " else i.set "|   "

/-- indent.push (format.go): step to a continuation symbol and open a level. -/
def Indent.push (i : Indent) (fctx : FmtCtx) : Indent :=
  ⟨(i.nextLine fctx).symbols ++ [""]⟩

/-- indent.pop (format.go). -/
def Indent.pop (i : Indent) : Indent :=
  ⟨i.symbols.dropLast⟩

/-- The formatter's output writer and indent stack (format.go formatter). -/
structure FmtState where
  out : String
  indent : Indent

/-- io.WriteString on the formatter's state. -/
def writeString (st : FmtState) (s : String) : FmtState :=
  ⟨st.out ++ s, st.indent⟩

/-- formatter.writeNewLine (format.go). -/
def writeNewLine (st : FmtState) (fctx : FmtCtx) : FmtState :=
  ⟨st.out ++ "\n", st.indent.nextLine fctx⟩

/-- formatter.writeIndent (format.go): indent.writeTo writes every symbol. -/
def writeIndent (st : FmtState) : FmtState :=
  ⟨st.out ++ String.join st.indent.symbols, st.indent⟩

/-- strings.Split(s, "\n") over the character list (the builtin splitter is
not kernel-reducible): n newlines give n+1 pieces. -/
def splitChar (sep : Char) : List Char → List (List Char)
  | [] => [[]]
  | c :: cs =>
    match splitChar sep cs with
    | [] => [[]]
    | l :: ls => if c = sep then [] :: l :: ls else (c :: l) :: ls

/-- The lines of a message (format.go writeNode). -/
def splitLines (s : String) : List String :=
  (splitChar '\n' s.data).map (fun l => ⟨l⟩)

/-- formatter.writeTypes (format.go): " (t1 t2 ...)" when non-empty. -/
def typesSuffix (types : List String) : String :=
  if types.isEmpty then "" else " (" ++ String.intercalate " " types ++ ")"

/-- Go %q of a string, modelled for the printable subset: backslash, quote,
newline and tab escaped, other characters verbatim. -/
def goQuoteChar (c : Char) : List Char :=
  if c = '\\' then ['\\', '\\']
  else if c = '\"' then ['\\', '\"']
  else if c = '\n' then ['\\', 'n']
  else if c = '\t' then ['\\', 't']
  else [c]

/-- Go %q (strconv-style quoting) of a tag value. -/
def goQuote (s : String) : String :=
  ⟨'\"' :: ((s.data.map goQuoteChar).flatten ++ ['\"'])⟩

/-- formatter.writeTags (format.go): " [n1:\x22v1\x22 n2:\x22v2\x22 ...]"
when non-empty. -/
def tagsSuffix (tags : List Tag) : String :=
  if tags.isEmpty then ""
  else " [" ++ String.intercalate " " (tags.map (fun t => t.name ++ ":" ++ goQuote t.value)) ++ "]"

/-- The line loop of formatter.writeNode: every line but the first preceded
by a new line, each line written after the indent. -/
def writeLines (st : FmtState) (fctx : FmtCtx) (first : Bool) : List String → FmtState
  | [] => st
  | line :: rest =>
    let st := if first then st else writeNewLine st fctx
    writeLines (writeString (writeIndent st) line) fctx false rest

/-- formatter.writeNode (format.go), %v path: optional leading newline, node
connector, the message lines, then the type and tag suffixes.  (%+v would
additionally render the collected stacks; the model covers the default
verbosity the tree-shape claims are about.) -/
def writeNode (st : FmtState) (fctx : FmtCtx) (msgs : List String)
    (types : List String) (tags : List Tag) : FmtState :=
  let st := if fctx.needNewLine then writeNewLine st fctx else st
  let st : FmtState := ⟨st.out, st.indent.nextNode fctx⟩
  let st := writeLines st fctx true (splitLines (String.intercalate ": " msgs))
  writeString (writeString st (typesSuffix types)) (tagsSuffix tags)

/-- The node-writing step of formatter.format after inspection: "." stands in
for an empty message list, writeNode renders the node, and an indent level is
pushed for the children. -/
def fmtNode (st : FmtState) (fctx : FmtCtx) (ins : Inspection) : FmtState :=
  let msgs := if ins.msgs.isEmpty then ["."] else ins.msgs
  let st := writeNode st fctx msgs ins.types ins.tags
  ⟨st.out, st.indent.push fctx⟩

mutual

/-- formatter.format (format.go) fused with inspect's chain collapse so that
the recursion is structural: the chain cases accumulate exactly inspectLoop's
data; each loop exit post-processes the accumulators as inspect does, writes
the node, formats the recorded causes as children (the child context gets the
causes' length and needNewLine as the source sets them before its loop), and
pops the indent level as the source's defer does. -/
def fmtLoop (st : FmtState) (fctx : FmtCtx) (ins : Inspection) : GoErr → FmtState
  | .errorWithMessage cause m =>
      fmtLoop st fctx (inspectStep ins (.errorWithMessage cause m)) cause
  | .errorWithStack cause s =>
      fmtLoop st fctx (inspectStep ins (.errorWithStack cause s)) cause
  | .errorWithTypes cause ts =>
      fmtLoop st fctx (inspectStep ins (.errorWithTypes cause ts)) cause
  | .errorWithTags cause ts =>
      fmtLoop st fctx (inspectStep ins (.errorWithTags cause ts)) cause
  | .foreignError m p (some (some cause)) =>
      fmtLoop st fctx (inspectStep ins (.foreignError m p (some (some cause)))) cause
  | .multiError errors =>
      let s := inspectStep ins (.multiError errors)
      let st := fmtNode st fctx ⟨s.msgs, dedupeTypes s.types, sortTags s.tags, s.stackTraces, []⟩
      let st := fmtList st ⟨0, errors.length, true⟩ errors
      ⟨st.out, st.indent.pop⟩
  | .errorValue m cs ts tgs stk =>
      let s := inspectStep ins (.errorValue m cs ts tgs stk)
      let st := fmtNode st fctx ⟨s.msgs, dedupeTypes s.types, sortTags s.tags, s.stackTraces, []⟩
      let st := fmtList st ⟨0, cs.length, true⟩ cs
      ⟨st.out, st.indent.pop⟩
  | .foreignError m p (some none) =>
      let s := inspectStep ins (.foreignError m p (some none))
      let st := fmtNode st fctx ⟨s.msgs, dedupeTypes s.types, sortTags s.tags, s.stackTraces, []⟩
      ⟨st.out, st.indent.pop⟩
  | .foreignError m p none =>
      let s := inspectStep ins (.foreignError m p none)
      let st := fmtNode st fctx ⟨s.msgs ++ [m], dedupeTypes s.types, sortTags s.tags, s.stackTraces, []⟩
      ⟨st.out, st.indent.pop⟩
  | .baseError m stk =>
      let s := inspectStep ins (.baseError m stk)
      let st := fmtNode st fctx ⟨s.msgs, dedupeTypes s.types, sortTags s.tags, s.stackTraces, []⟩
      ⟨st.out, st.indent.pop⟩
  | .errorTODO =>
      let s := inspectStep ins .errorTODO
      let st := fmtNode st fctx ⟨s.msgs ++ ["TODO"], dedupeTypes s.types, sortTags s.tags, s.stackTraces, []⟩
      ⟨st.out, st.indent.pop⟩

/-- The children loop of formatter.format: fctx.index counts up from 0. -/
def fmtList (st : FmtState) (fctx : FmtCtx) : List GoErr → FmtState
  | [] => st
  | c :: rest =>
    fmtList (fmtLoop st fctx emptyIns c) ⟨fctx.index + 1, fctx.length, fctx.needNewLine⟩ rest

end

/-- The %v rendering of a non-nil error (format.go format): the root context
has length 1, index 0 and no pending newline. -/
def formatV (e : GoErr) : String :=
  (fmtLoop ⟨"", ⟨[]⟩⟩ ⟨0, 1, false⟩ emptyIns e).out

/-- The error shapes the amended round-trip claim ranges over: single-cause
chains built by New / Errorf / WithMessage / WithStack / WithStackTrace /
WithTypes / WithTags / Wrap over a base leaf, whose messages are non-empty
and contain no newline. -/
def chainOk : GoErr → Bool
  | .baseError m _ => m.length != 0 && !(m.data.contains '\n')
  | .errorWithMessage cause m => m.length != 0 && !(m.data.contains '\n') && chainOk cause
  | .errorWithStack cause _ => chainOk cause
  | .errorWithTypes cause _ => chainOk cause
  | .errorWithTags cause _ => chainOk cause
  | _ => false

/-- The non-empty own messages along a single-cause chain, outermost first
(analysis helper mirroring inspect's message collection on chains). -/
def chainMsgs : GoErr → List String
  | .baseError m _ => if m.length ≠ 0 then [m] else []
  | .errorWithMessage cause m => (if m.length ≠ 0 then [m] else []) ++ chainMsgs cause
  | .errorWithStack cause _ => chainMsgs cause
  | .errorWithTypes cause _ => chainMsgs cause
  | .errorWithTags cause _ => chainMsgs cause
  | _ => []

instance : IsTotal String strRel :=
  ⟨fun a b => le_total a.data b.data⟩

instance : IsTrans String strRel :=
  ⟨fun _ _ _ hab hbc => le_trans hab hbc⟩

instance : IsTotal Tag tagRel := by
  constructor
  intro a b
  rcases lt_trichotomy a.name.data b.name.data with h | h | h
  · exact Or.inl (Or.inl h)
  · have hn : a.name = b.name := String.ext h
    rcases le_total a.value.data b.value.data with h2 | h2
    · exact Or.inl (Or.inr ⟨hn, h2⟩)
    · exact Or.inr (Or.inr ⟨hn.symm, h2⟩)
  · exact Or.inr (Or.inl h)

instance : IsTrans Tag tagRel := by
  constructor
  intro a b c hab hbc
  rcases hab with h1 | ⟨h1, h1v⟩ <;> rcases hbc with h2 | ⟨h2, h2v⟩
  · exact Or.inl (h1.trans h2)
  · exact Or.inl (h2 ▸ h1)
  · exact Or.inl (h1 ▸ h2)
  · exact Or.inr ⟨h1.trans h2, h1v.trans h2v⟩

/-- A sample constructor chain used to instantiate the round-trip theorem:
Wrap over New, with types and tags added. -/
def sampleChain : GoErr :=
  .errorWithTags (.errorWithTypes (.errorWithMessage
    (.errorWithStack (.baseError "boom" [⟨"a.go", 1, "pkg.F"⟩]) [⟨"b.go", 2, "pkg.G"⟩])
    "ctx") ["T1"]) [T "k" "v"]

/-- A sample freshly captured stack for the round-trip theorem. -/
def sampleFresh : StackTrace :=
  [⟨"c.go", 3, "pkg.H"⟩]

/-- The kind-carrying test at a single node, exactly what appendTypes
collects there: membership of the node's explicit Types() list, or a true
zero-argument boolean method named kind. -/
def hasKindHere (kind : String) (e : GoErr) : Bool :=
  ((typesMethod e).getD []).contains kind || (truePredNames e).contains kind

/-- A true zero-argument boolean method named kind at the node itself. -/
def hasTruePredHere (kind : String) (e : GoErr) : Bool :=
  (truePredNames e).contains kind

/-- A false-returning zero-argument boolean method named kind at the node:
the configuration in which Is's reflection dispatch returns early. -/
def hasFalsePredHere (kind : String) (e : GoErr) : Bool :=
  match e with
  | .foreignError _ preds _ => preds.any (fun p => p.1 == kind && !p.2)
  | _ => false

mutual

/-- Whether some node of the cause graph reachable by walk's traversal
satisfies p. -/
def reachAny (p : GoErr → Bool) : GoErr → Bool
  | .errorWithMessage cause m => p (.errorWithMessage cause m) || reachAny p cause
  | .errorWithStack cause s => p (.errorWithStack cause s) || reachAny p cause
  | .errorWithTypes cause ts => p (.errorWithTypes cause ts) || reachAny p cause
  | .errorWithTags cause ts => p (.errorWithTags cause ts) || reachAny p cause
  | .foreignError m pr (some (some cause)) =>
      p (.foreignError m pr (some (some cause))) || reachAny p cause
  | .multiError errors => p (.multiError errors) || reachAnyList p errors
  | .errorValue m cs ts tgs st => p (.errorValue m cs ts tgs st) || reachAnyList p cs
  | e => p e

/-- Whether some node reachable from a member of the list satisfies p. -/
def reachAnyList (p : GoErr → Bool) : List GoErr → Bool
  | [] => false
  | c :: rest => reachAny p c || reachAnyList p rest

end

/-- C8: every wrapping constructor propagates nil: WithMessage, WithStack,
WithStackTrace, WithTypes, WithTags, Wrap and Wrapf all return nil when their
input error is nil, for every registry and every parameter value. -/
theorem claim_C8_nil_propagation (reg : List Adapter) (msg : String) (st : StackTrace)
    (types : List String) (tags : List Tag) :
    WithMessage reg none msg = none ∧
    WithStack reg none st = none ∧
    WithStackTrace reg none st = none ∧
    WithTypes reg none types = none ∧
    WithTags reg none tags = none ∧
    Wrap reg none msg st = none ∧
    Wrapf reg none msg st = none :=
  ⟨rfl, rfl, rfl, rfl, rfl, rfl, rfl⟩

/-- C5: Cause is idempotent: it follows single-cause links as far as possible
and stops at a node whose cause capability is absent or returns nil, so its
result is a fixed point of Cause. -/
theorem claim_C5_cause_idempotent : ∀ e : GoErr, Cause (Cause e) = Cause e
  | .baseError _ _ => rfl
  | .multiError _ => rfl
  | .errorTODO => rfl
  | .errorValue _ _ _ _ _ => rfl
  | .errorWithMessage c _ => claim_C5_cause_idempotent c
  | .errorWithStack c _ => claim_C5_cause_idempotent c
  | .errorWithTypes c _ => claim_C5_cause_idempotent c
  | .errorWithTags c _ => claim_C5_cause_idempotent c
  | .foreignError _ _ (some (some c)) => claim_C5_cause_idempotent c
  | .foreignError _ _ (some none) => rfl
  | .foreignError _ _ none => rfl

/-- C2: Join drops nil arguments and returns nil when no non-nil argument
survives; otherwise it builds a multi-cause node whose Causes are exactly the
surviving errors in input order.  The survivors pass through the adapter
registry, so the hypotheses fix them under adaptation — which holds in
particular for the package's own variants and for the empty registry the
process starts with. -/
theorem claim_C2_join_causes (reg : List Adapter) (e1 e2 e3 : GoErr)
    (es : List (Option GoErr))
    (h1 : adapt1 reg e1 = e1) (h2 : adapt1 reg e2 = e2) (h3 : adapt1 reg e3 = e3)
    (hall : ∀ x ∈ es, x = none) :
    Causes (Join reg [some e1, some e2, some e3]) = [e1, e2, e3] ∧
    Join reg [none, some e1, none] = some (.multiError [e1]) ∧
    Join reg es = none := by
  refine ⟨?_, ?_, ?_⟩
  · show Causes (some (.multiError [adapt1 reg e1, adapt1 reg e2, adapt1 reg e3])) = _
    rw [h1, h2, h3]
    rfl
  · show some (GoErr.multiError [adapt1 reg e1]) = _
    rw [h1]
  · have : es.filterMap id = [] := by
      rw [List.filterMap_eq_nil_iff]
      intro a ha
      exact hall a ha
    unfold Join
    rw [this]
    rfl

/-- Witness for C2 at concrete inputs: three base errors, the empty registry,
and an all-nil argument list. -/
theorem claim_C2_join_causes_witness :
    Causes (Join [] [some (.baseError "a" []), some (.baseError "b" []),
      some (.baseError "c" [])]) = [.baseError "a" [], .baseError "b" [], .baseError "c" []] ∧
    Join [] [none, some (.baseError "a" []), none] = some (.multiError [.baseError "a" []]) ∧
    Join ([] : List Adapter) [none, none] = none :=
  claim_C2_join_causes [] (.baseError "a" []) (.baseError "b" []) (.baseError "c" [])
    [none, none] rfl rfl rfl (by intro x hx; simp at hx; exact hx)

/-- C3: Adapt(nil) is nil; an error that is already an internal node variant
is returned unchanged whatever the registry holds (no scan); otherwise the
registered adapters are scanned in registration order, the first recognizing
adapter alone determines the result (the rest of the registry is arbitrary
here), and an error no registered adapter recognizes comes back unchanged. -/
theorem claim_C3_adapt_registry (reg rest : List Adapter) (a : Adapter)
    (eInt eF adapted : GoErr)
    (hInt : eInt.isInternal = true) (hF : eF.isInternal = false)
    (hRec : a eF = some adapted) (hNone : ∀ b ∈ reg, b eF = none) :
    Adapt reg none = none ∧
    Adapt reg (some eInt) = some eInt ∧
    Adapt (a :: rest) (some eF) = some adapted ∧
    Adapt reg (some eF) = some eF := by
  refine ⟨rfl, ?_, ?_, ?_⟩
  · show some (adapt1 reg eInt) = _
    unfold adapt1
    rw [hInt]
    rfl
  · show some (adapt1 (a :: rest) eF) = _
    unfold adapt1
    rw [hF]
    show some (adapt (a :: rest) eF) = _
    unfold adapt
    rw [hRec]
  · show some (adapt1 reg eF) = _
    unfold adapt1
    rw [hF]
    simp only [Bool.false_eq_true, if_false]
    congr 1
    clear hF
    induction reg with
    | nil => rfl
    | cons b bs ih =>
      unfold adapt
      rw [hNone b (by simp)]
      exact ih (fun c hc => hNone c (by simp [hc]))

/-- Witness for C3 at concrete inputs: a foreign error, an adapter that
recognizes everything as a fixed base error, and a registry of one adapter
that recognizes nothing. -/
theorem claim_C3_adapt_registry_witness :
    Adapt [fun _ => none] none = none ∧
    Adapt [fun _ => none] (some (.baseError "b" [])) = some (.baseError "b" []) ∧
    Adapt ((fun _ => some (.baseError "adapted" [])) :: [fun _ => some (.baseError "other" [])])
      (some (.foreignError "f" [] none)) = some (.baseError "adapted" []) ∧
    Adapt [fun _ => none] (some (.foreignError "f" [] none)) = some (.foreignError "f" [] none) :=
  claim_C3_adapt_registry [fun _ => none] [fun _ => some (.baseError "other" [])]
    (fun _ => some (.baseError "adapted" [])) (.baseError "b" []) (.foreignError "f" [] none)
    (.baseError "adapted" []) rfl rfl rfl (by intro b hb; simp at hb; rw [hb])

/-- C9: Recv over the sequence of values delivered on the channel before it
closed returns exactly what Join returns on that sequence: nils ignored,
survivors adapted in receive order, nil when nothing non-nil was received. -/
theorem claim_C9_recv_equals_join (reg : List Adapter) (received : List (Option GoErr)) :
    Recv reg received = Join reg received := by
  unfold Recv Join
  cases h : received.filterMap id with
  | nil => simp [h]
  | cons a l => simp [h]

/-- C10: for an error that is already an internal node variant, adding a
stack trace, types or tags never changes the rendered message. -/
theorem claim_C10_wrappers_preserve_message (reg : List Adapter) (e : GoErr)
    (st : StackTrace) (types : List String) (tags : List Tag)
    (h : e.isInternal = true) :
    (WithStack reg (some e) st).map GoErr.Error = some e.Error ∧
    (WithTypes reg (some e) types).map GoErr.Error = some e.Error ∧
    (WithTags reg (some e) tags).map GoErr.Error = some e.Error := by
  have ha : adapt1 reg e = e := by
    unfold adapt1
    rw [h]
    rfl
  refine ⟨?_, ?_, ?_⟩
  · show (some (GoErr.errorWithStack (adapt1 reg e) st)).map GoErr.Error = some e.Error
    rw [ha]
    rfl
  · show (some (GoErr.errorWithTypes (adapt1 reg e) (copyTypes types))).map GoErr.Error =
      some e.Error
    rw [ha]
    rfl
  · show (some (GoErr.errorWithTags (adapt1 reg e) (makeTags tags))).map GoErr.Error =
      some e.Error
    rw [ha]
    rfl

/-- Witness for C10 at a concrete internal error. -/
theorem claim_C10_wrappers_preserve_message_witness :
    (WithStack [] (some (.baseError "m" [])) []).map GoErr.Error = some "m" ∧
    (WithTypes [] (some (.baseError "m" [])) ["T"]).map GoErr.Error = some "m" ∧
    (WithTags [] (some (.baseError "m" [])) [T "k" "v"]).map GoErr.Error = some "m" :=
  claim_C10_wrappers_preserve_message [] (.baseError "m" []) [] ["T"] [T "k" "v"] rfl

/-- C6 counterexample: within a single literal tag list passed to WithTags,
BOTH occurrences of a duplicated name are kept (makeTags copies and sorts but
never deduplicates), so "only the first occurrence of a name is kept" fails:
the aggregated tags of WithTags(New "m", ("x","2"), ("x","1")) are both pairs,
not the first-listed one alone. -/
theorem claim_C6_counterexample :
    Tags (WithTags [] (some (New "m" [])) [T "x" "2", T "x" "1"]) = [T "x" "1", T "x" "2"] ∧
    Tags (WithTags [] (some (New "m" [])) [T "x" "2", T "x" "1"]) ≠ [T "x" "2"] :=
  ⟨by decide, by decide⟩

/-- C6 amended: tag aggregation preserves duplicate names contributed by
different nodes of the cause graph, sorted by name then value (the claim's
instance); within a single literal list the constructor keeps every
occurrence, sorted; the first-occurrence-of-a-name-wins rule belongs to
makeTagsMap, the snapshot tag-map builder, not to the constructors. -/
theorem claim_C6_tags_aggregation :
    Tags (WithTags []
      (Join [] [WithTags [] (some (New "a" [])) [T "x" "1"], some (New "b" [])])
      [T "x" "2"]) = [T "x" "1", T "x" "2"] ∧
    Tags (WithTags [] (some (New "m" [])) [T "x" "2", T "x" "1"]) = [T "x" "1", T "x" "2"] ∧
    makeTagsMap [T "x" "1", T "x" "2"] = [T "x" "1"] :=
  ⟨by decide, by decide, by decide⟩

/-- Membership is preserved by the dedupe loop of dedupeTypes. -/
theorem mem_cons_dedupeAux (a : String) :
    ∀ (xs : List String) (x : String), a ∈ x :: dedupeAux x xs ↔ a ∈ x :: xs
  | [], _ => Iff.rfl
  | y :: ys, x => by
    by_cases h : y = x
    · subst h
      simp only [dedupeAux, if_pos rfl]
      have ih := mem_cons_dedupeAux a ys y
      simp only [List.mem_cons] at ih ⊢
      tauto
    · simp only [dedupeAux, if_neg h]
      have ih := mem_cons_dedupeAux a ys y
      simp only [List.mem_cons] at ih ⊢
      tauto

/-- Membership is invariant under dedupeTypes. -/
theorem mem_dedupeTypes (a : String) (l : List String) : a ∈ dedupeTypes l ↔ a ∈ l := by
  have hp : List.Perm (sortTypes l) l := List.perm_insertionSort strRel l
  unfold dedupeTypes
  cases h : sortTypes l with
  | nil =>
    rw [h] at hp
    rw [hp.symm.eq_nil]
  | cons x xs =>
    rw [h] at hp
    rw [mem_cons_dedupeAux]
    exact hp.mem_iff

/-- The empty string list contains nothing. -/
theorem containsS_nil (a : String) : ([] : List String).contains a = false :=
  rfl

/-- String-list contains agrees with membership. -/
theorem containsS_iff_mem (a : String) (l : List String) : l.contains a = true ↔ a ∈ l :=
  List.elem_iff

mutual

/-- A name is in deepAppendTypes' walked accumulation iff it was already in
the accumulator or some node reachable in the cause graph carries it as an
explicit type or a true predicate. -/
theorem mem_walkTypes (a : String) (acc : List String) (e : GoErr) :
    a ∈ walkAcc appendTypes acc e ↔ a ∈ acc ∨ reachAny (hasKindHere a) e = true := by
  cases e with
  | baseError m st =>
    simp [walkAcc, appendTypes, typesMethod, truePredNames, reachAny, hasKindHere,
      containsS_iff_mem]
  | errorTODO =>
    simp [walkAcc, appendTypes, typesMethod, truePredNames, reachAny, hasKindHere,
      containsS_iff_mem]
  | errorWithMessage cause m =>
    show a ∈ walkAcc appendTypes (appendTypes acc (.errorWithMessage cause m)) cause ↔ _
    rw [mem_walkTypes a (appendTypes acc (.errorWithMessage cause m)) cause]
    simp [appendTypes, typesMethod, truePredNames, reachAny, hasKindHere, containsS_iff_mem]
  | errorWithStack cause s =>
    show a ∈ walkAcc appendTypes (appendTypes acc (.errorWithStack cause s)) cause ↔ _
    rw [mem_walkTypes a (appendTypes acc (.errorWithStack cause s)) cause]
    simp [appendTypes, typesMethod, truePredNames, reachAny, hasKindHere, containsS_iff_mem]
  | errorWithTags cause ts =>
    show a ∈ walkAcc appendTypes (appendTypes acc (.errorWithTags cause ts)) cause ↔ _
    rw [mem_walkTypes a (appendTypes acc (.errorWithTags cause ts)) cause]
    simp [appendTypes, typesMethod, truePredNames, reachAny, hasKindHere, containsS_iff_mem]
  | errorWithTypes cause ts =>
    show a ∈ walkAcc appendTypes (appendTypes acc (.errorWithTypes cause ts)) cause ↔ _
    rw [mem_walkTypes a (appendTypes acc (.errorWithTypes cause ts)) cause]
    simp only [appendTypes, typesMethod, truePredNames, Option.getD_some, List.append_nil,
      reachAny, hasKindHere, List.mem_append, Bool.or_eq_true, containsS_iff_mem,
      List.not_mem_nil, or_false, false_or]
    tauto
  | multiError errors =>
    show a ∈ walkAccList appendTypes (appendTypes acc (.multiError errors)) errors ↔ _
    rw [mem_walkTypesList a (appendTypes acc (.multiError errors)) errors]
    simp [appendTypes, typesMethod, truePredNames, reachAny, hasKindHere, containsS_iff_mem]
  | errorValue m cs ts tgs st =>
    show a ∈ walkAccList appendTypes (appendTypes acc (.errorValue m cs ts tgs st)) cs ↔ _
    rw [mem_walkTypesList a (appendTypes acc (.errorValue m cs ts tgs st)) cs]
    simp only [appendTypes, typesMethod, truePredNames, Option.getD_some, List.append_nil,
      reachAny, hasKindHere, List.mem_append, Bool.or_eq_true, containsS_iff_mem,
      List.not_mem_nil, or_false, false_or]
    tauto
  | foreignError m pr cm =>
    match cm with
    | some (some cause) =>
      show a ∈ walkAcc appendTypes
          (appendTypes acc (.foreignError m pr (some (some cause)))) cause ↔ _
      rw [mem_walkTypes a (appendTypes acc (.foreignError m pr (some (some cause)))) cause]
      simp only [appendTypes, typesMethod, truePredNames, Option.getD_none, List.nil_append,
        List.append_nil, reachAny, hasKindHere, List.mem_append, Bool.or_eq_true,
        containsS_iff_mem, List.not_mem_nil, or_false, false_or]
      tauto
    | some none =>
      show a ∈ appendTypes acc (.foreignError m pr (some none)) ↔ _
      simp only [appendTypes, typesMethod, truePredNames, Option.getD_none, List.nil_append,
        List.append_nil, reachAny, hasKindHere, List.mem_append, Bool.or_eq_true,
        containsS_iff_mem, List.not_mem_nil, or_false, false_or]
    | none =>
      show a ∈ appendTypes acc (.foreignError m pr none) ↔ _
      simp only [appendTypes, typesMethod, truePredNames, Option.getD_none, List.nil_append,
        List.append_nil, reachAny, hasKindHere, List.mem_append, Bool.or_eq_true,
        containsS_iff_mem, List.not_mem_nil, or_false, false_or]

/-- List version of mem_walkTypes, over a causes list. -/
theorem mem_walkTypesList (a : String) (acc : List String) (l : List GoErr) :
    a ∈ walkAccList appendTypes acc l ↔ a ∈ acc ∨ reachAnyList (hasKindHere a) l = true := by
  cases l with
  | nil => simp [walkAccList, reachAnyList]
  | cons c rest =>
    show a ∈ walkAccList appendTypes (walkAcc appendTypes acc c) rest ↔ _
    rw [mem_walkTypesList a (walkAcc appendTypes acc c) rest,
      mem_walkTypes a acc c]
    simp only [reachAnyList, Bool.or_eq_true]
    tauto

end

/-- Types(e) contains a name iff some reachable node carries it. -/
theorem mem_Types_iff_reach (a : String) (e : GoErr) :
    a ∈ Types (some e) ↔ reachAny (hasKindHere a) e = true := by
  show a ∈ deepAppendTypes [] (some e) ↔ _
  unfold deepAppendTypes
  rw [mem_dedupeTypes, mem_walkTypes]
  simp

mutual

/-- reachAny is monotone in the node predicate. -/
theorem reachAny_mono (p q : GoErr → Bool) (hpq : ∀ n, p n = true → q n = true)
    (e : GoErr) (h : reachAny p e = true) : reachAny q e = true := by
  cases e with
  | baseError m st => exact hpq _ h
  | errorTODO => exact hpq _ h
  | errorWithMessage cause m =>
    rw [reachAny, Bool.or_eq_true] at h ⊢
    rcases h with h | h
    · exact Or.inl (hpq _ h)
    · exact Or.inr (reachAny_mono p q hpq cause h)
  | errorWithStack cause s =>
    rw [reachAny, Bool.or_eq_true] at h ⊢
    rcases h with h | h
    · exact Or.inl (hpq _ h)
    · exact Or.inr (reachAny_mono p q hpq cause h)
  | errorWithTypes cause ts =>
    rw [reachAny, Bool.or_eq_true] at h ⊢
    rcases h with h | h
    · exact Or.inl (hpq _ h)
    · exact Or.inr (reachAny_mono p q hpq cause h)
  | errorWithTags cause ts =>
    rw [reachAny, Bool.or_eq_true] at h ⊢
    rcases h with h | h
    · exact Or.inl (hpq _ h)
    · exact Or.inr (reachAny_mono p q hpq cause h)
  | multiError errors =>
    rw [reachAny, Bool.or_eq_true] at h ⊢
    rcases h with h | h
    · exact Or.inl (hpq _ h)
    · exact Or.inr (reachAnyList_mono p q hpq errors h)
  | errorValue m cs ts tgs st =>
    rw [reachAny, Bool.or_eq_true] at h ⊢
    rcases h with h | h
    · exact Or.inl (hpq _ h)
    · exact Or.inr (reachAnyList_mono p q hpq cs h)
  | foreignError m pr cm =>
    match cm with
    | some (some cause) =>
      rw [reachAny, Bool.or_eq_true] at h ⊢
      rcases h with h | h
      · exact Or.inl (hpq _ h)
      · exact Or.inr (reachAny_mono p q hpq cause h)
    | some none => exact hpq _ h
    | none => exact hpq _ h

/-- List version of reachAny_mono. -/
theorem reachAnyList_mono (p q : GoErr → Bool) (hpq : ∀ n, p n = true → q n = true)
    (l : List GoErr) (h : reachAnyList p l = true) : reachAnyList q l = true := by
  cases l with
  | nil => exact absurd h (by simp [reachAnyList])
  | cons c rest =>
    rw [reachAnyList, Bool.or_eq_true] at h ⊢
    rcases h with h | h
    · exact Or.inl (reachAny_mono p q hpq c h)
    · exact Or.inr (reachAnyList_mono p q hpq rest h)

end

/-- When no method named kind returns false and the reflection lookup finds a
method named kind, that method returns true and kind is among the node's true
predicate names. -/
theorem find_pred_some (kind : String) (preds : List (String × Bool)) (q : String × Bool)
    (hfind : preds.find? (fun p => p.1 == kind) = some q)
    (hnf : preds.any (fun p => p.1 == kind && !p.2) = false) :
    q.2 = true ∧ ((preds.filter (fun p => p.2)).map (fun p => p.1)).contains kind = true := by
  have hq0 := List.find?_some hfind
  simp only [] at hq0
  have hq : (q.1 == kind) = true := hq0
  have hqm : q ∈ preds := List.mem_of_find?_eq_some hfind
  have hall : ∀ p ∈ preds, ¬(p.1 == kind && !p.2) = true := by
    intro p hp
    rw [List.any_eq_false] at hnf
    exact hnf p hp
  have hq2 : q.2 = true := by
    have hnq := hall q hqm
    rw [hq] at hnq
    cases hb : q.2
    · rw [hb] at hnq
      simp at hnq
    · rfl
  refine ⟨hq2, ?_⟩
  rw [containsS_iff_mem]
  refine List.mem_map.mpr ⟨q, List.mem_filter_of_mem hqm (by rw [hq2]), ?_⟩
  simpa using hq

/-- When the reflection lookup finds no method named kind, kind is not among
the node's true predicate names either. -/
theorem find_pred_none (kind : String) (preds : List (String × Bool))
    (hfind : preds.find? (fun p => p.1 == kind) = none) :
    ((preds.filter (fun p => p.2)).map (fun p => p.1)).contains kind = false := by
  have hall : ∀ p ∈ preds, ¬(p.1 == kind) = true := by
    intro p hp
    rw [List.find?_eq_none] at hfind
    exact hfind p hp
  cases hc : ((preds.filter (fun p => p.2)).map (fun p => p.1)).contains kind
  · rfl
  · exfalso
    obtain ⟨p, hpmem, hp1⟩ := List.mem_map.mp ((containsS_iff_mem _ _).mp hc)
    have hnp := hall p (List.mem_of_mem_filter hpmem)
    rw [hp1] at hnp
    simp at hnp

mutual

/-- When no reachable node carries a false-returning method named kind, Is
computes exactly reachability of the kind: every node's reflection dispatch
either finds a true method (and both sides are true) or finds nothing and
falls through to the causes, as the walk does. -/
theorem isGo_eq_reach (kind : String) (e : GoErr)
    (h : reachAny (hasFalsePredHere kind) e = false) :
    isGo kind e = reachAny (hasKindHere kind) e := by
  cases e with
  | baseError m st => rfl
  | errorTODO => rfl
  | errorWithMessage cause m =>
    rw [reachAny, Bool.or_eq_false_iff] at h
    show isGo kind cause = _
    rw [isGo_eq_reach kind cause h.2, reachAny]
    simp [hasKindHere, typesMethod, truePredNames, List.contains]
  | errorWithStack cause s =>
    rw [reachAny, Bool.or_eq_false_iff] at h
    show isGo kind cause = _
    rw [isGo_eq_reach kind cause h.2, reachAny]
    simp [hasKindHere, typesMethod, truePredNames, List.contains]
  | errorWithTags cause ts =>
    rw [reachAny, Bool.or_eq_false_iff] at h
    show isGo kind cause = _
    rw [isGo_eq_reach kind cause h.2, reachAny]
    simp [hasKindHere, typesMethod, truePredNames, List.contains]
  | errorWithTypes cause ts =>
    rw [reachAny, Bool.or_eq_false_iff] at h
    show (ts.contains kind || isGo kind cause) = _
    rw [isGo_eq_reach kind cause h.2, reachAny]
    simp [hasKindHere, typesMethod, truePredNames, List.contains]
  | multiError errors =>
    rw [reachAny, Bool.or_eq_false_iff] at h
    show isGoList kind errors = _
    rw [isGoList_eq_reach kind errors h.2, reachAny]
    simp [hasKindHere, typesMethod, truePredNames, List.contains]
  | errorValue m cs ts tgs st =>
    rw [reachAny, Bool.or_eq_false_iff] at h
    show (ts.contains kind || isGoList kind cs) = _
    rw [isGoList_eq_reach kind cs h.2, reachAny]
    simp [hasKindHere, typesMethod, truePredNames, List.contains]
  | foreignError m pr cm =>
    match cm with
    | some (some cause) =>
      rw [reachAny, Bool.or_eq_false_iff] at h
      have hnf : pr.any (fun p => p.1 == kind && !p.2) = false := h.1
      cases hfind : pr.find? (fun p => p.1 == kind) with
      | some q =>
        obtain ⟨hq2, hcont⟩ := find_pred_some kind pr q hfind hnf
        simp only [isGo, hfind, hq2, reachAny, hasKindHere, typesMethod, truePredNames,
          Option.getD_none]
        rw [hcont]
        simp
      | none =>
        have hcont := find_pred_none kind pr hfind
        simp only [isGo, hfind]
        rw [isGo_eq_reach kind cause h.2]
        simp only [reachAny, hasKindHere, typesMethod, truePredNames, Option.getD_none]
        rw [hcont]
        simp [containsS_nil]
    | some none =>
      have hnf : pr.any (fun p => p.1 == kind && !p.2) = false := h
      cases hfind : pr.find? (fun p => p.1 == kind) with
      | some q =>
        obtain ⟨hq2, hcont⟩ := find_pred_some kind pr q hfind hnf
        simp only [isGo, hfind, hq2, reachAny, hasKindHere, typesMethod, truePredNames,
          Option.getD_none]
        rw [hcont]
        simp
      | none =>
        have hcont := find_pred_none kind pr hfind
        simp only [isGo, hfind, reachAny, hasKindHere, typesMethod, truePredNames,
          Option.getD_none]
        rw [hcont]
        simp [containsS_nil]
    | none =>
      have hnf : pr.any (fun p => p.1 == kind && !p.2) = false := h
      cases hfind : pr.find? (fun p => p.1 == kind) with
      | some q =>
        obtain ⟨hq2, hcont⟩ := find_pred_some kind pr q hfind hnf
        simp only [isGo, hfind, hq2, reachAny, hasKindHere, typesMethod, truePredNames,
          Option.getD_none]
        rw [hcont]
        simp
      | none =>
        have hcont := find_pred_none kind pr hfind
        simp only [isGo, hfind, reachAny, hasKindHere, typesMethod, truePredNames,
          Option.getD_none]
        rw [hcont]
        simp [containsS_nil]

/-- List version of isGo_eq_reach over a causes list. -/
theorem isGoList_eq_reach (kind : String) (l : List GoErr)
    (h : reachAnyList (hasFalsePredHere kind) l = false) :
    isGoList kind l = reachAnyList (hasKindHere kind) l := by
  cases l with
  | nil => rfl
  | cons c rest =>
    rw [reachAnyList, Bool.or_eq_false_iff] at h
    show (isGo kind c || isGoList kind rest) = _
    rw [isGo_eq_reach kind c h.1, isGoList_eq_reach kind rest h.2, reachAnyList]

end

/-- C1 amended: provided no node reachable from e exposes a false-returning
zero-argument boolean method named kind, Is(kind, e) is true iff kind appears
in Types(e) or some reachable node exposes a true zero-argument boolean
method named kind.  (Without the proviso the equivalence fails: a false
predicate at an outer node makes Is return false without consulting the
causes, while Types still aggregates them — see the counterexample.) -/
theorem claim_C1_is_types_query (kind : String) (e : GoErr)
    (h : reachAny (hasFalsePredHere kind) e = false) :
    Is kind (some e) = true ↔
      (kind ∈ Types (some e) ∨ reachAny (hasTruePredHere kind) e = true) := by
  show isGo kind e = true ↔ _
  rw [isGo_eq_reach kind e h, mem_Types_iff_reach]
  constructor
  · intro hr
    exact Or.inl hr
  · rintro (hr | hr)
    · exact hr
    · refine reachAny_mono _ _ ?_ e hr
      intro n hn
      have hn2 : (truePredNames n).contains kind = true := hn
      rw [hasKindHere, hn2]
      simp

/-- Witness for C1 at the claim's own instance WithTypes(leaf, "Temporary"):
no predicate method exists anywhere, the explicit type alone makes Is true. -/
theorem claim_C1_is_types_query_witness :
    reachAny (hasFalsePredHere "Temporary")
      (.errorWithTypes (.baseError "leaf" []) ["Temporary"]) = false ∧
    (Is "Temporary" (some (.errorWithTypes (.baseError "leaf" []) ["Temporary"])) = true ↔
      ("Temporary" ∈ Types (some (.errorWithTypes (.baseError "leaf" []) ["Temporary"])) ∨
        reachAny (hasTruePredHere "Temporary")
          (.errorWithTypes (.baseError "leaf" []) ["Temporary"]) = true)) :=
  ⟨by decide, claim_C1_is_types_query "Temporary"
    (.errorWithTypes (.baseError "leaf" []) ["Temporary"]) (by decide)⟩

/-- C1 counterexample: a foreign error whose Temporary() method returns false
makes Is return that false without consulting the cause, although the cause's
explicit type puts "Temporary" into Types — so the claimed equivalence fails
as stated. -/
theorem claim_C1_counterexample :
    Is "Temporary" (some (.foreignError "boom" [("Temporary", false)]
      (some (some (.errorWithTypes (.baseError "x" []) ["Temporary"]))))) = false ∧
    "Temporary" ∈ Types (some (.foreignError "boom" [("Temporary", false)]
      (some (some (.errorWithTypes (.baseError "x" []) ["Temporary"]))))) :=
  ⟨rfl, by decide⟩

/-- The accumulator loop of String.intercalate distributes over a prefix. -/
theorem intercalate_go_distrib (s : String) :
    ∀ (l : List String) (x y : String),
      String.intercalate.go (x ++ y) s l = x ++ String.intercalate.go y s l
  | [], _, _ => rfl
  | a :: as, x, y => by
    show String.intercalate.go (x ++ y ++ s ++ a) s as =
      x ++ String.intercalate.go (y ++ s ++ a) s as
    rw [String.append_assoc x y s, String.append_assoc x (y ++ s) a]
    exact intercalate_go_distrib s as x ((y ++ s) ++ a)

/-- intercalate over a cons with non-empty tail splits off the head. -/
theorem intercalate_cons_cons (s a b : String) (l : List String) :
    String.intercalate s (a :: b :: l) = a ++ s ++ String.intercalate s (b :: l) := by
  show String.intercalate.go (a ++ s ++ b) s l = a ++ s ++ String.intercalate.go b s l
  rw [intercalate_go_distrib s l (a ++ s) b]

/-- A string with a non-empty first summand is non-empty. -/
theorem append_ne_empty_left (a b : String) (h : a.length ≠ 0) : a ++ b ≠ "" := by
  intro he
  have h0 : (a ++ b).length = 0 := by
    rw [he]
    rfl
  rw [String.length_append] at h0
  omega

/-- On a chain, the collected messages compose to the rendered Error string,
and the first collected message is the non-empty outermost one. -/
theorem chainMsgs_error : ∀ e : GoErr, chainOk e = true →
    String.intercalate ": " (chainMsgs e) = e.Error ∧
    ∃ m0 rest, chainMsgs e = m0 :: rest ∧ m0.length ≠ 0
  | .baseError m st, h => by
    simp only [chainOk, Bool.and_eq_true, bne_iff_ne, ne_eq] at h
    have hm : m.length ≠ 0 := h.1
    refine ⟨?_, m, [], ?_, hm⟩
    · simp only [chainMsgs, if_pos hm]
      rfl
    · simp only [chainMsgs, if_pos hm]
  | .errorWithMessage cause m, h => by
    simp only [chainOk, Bool.and_eq_true, bne_iff_ne, ne_eq] at h
    have hm : m.length ≠ 0 := h.1.1
    obtain ⟨heq, m0, rest, hms, hm0⟩ := chainMsgs_error cause h.2
    refine ⟨?_, m, m0 :: rest, ?_, hm⟩
    · simp only [chainMsgs, if_pos hm, List.cons_append, List.nil_append, hms]
      rw [intercalate_cons_cons]
      show _ = m ++ ": " ++ cause.Error
      rw [← heq, hms]
    · simp only [chainMsgs, if_pos hm, List.cons_append, List.nil_append, hms]
  | .errorWithStack cause st, h => by
    obtain ⟨heq, m0, rest, hms, hm0⟩ := chainMsgs_error cause h
    exact ⟨heq, m0, rest, hms, hm0⟩
  | .errorWithTypes cause ts, h => by
    obtain ⟨heq, m0, rest, hms, hm0⟩ := chainMsgs_error cause h
    exact ⟨heq, m0, rest, hms, hm0⟩
  | .errorWithTags cause ts, h => by
    obtain ⟨heq, m0, rest, hms, hm0⟩ := chainMsgs_error cause h
    exact ⟨heq, m0, rest, hms, hm0⟩
  | .multiError _, h => by simp [chainOk] at h
  | .errorTODO, h => by simp [chainOk] at h
  | .errorValue _ _ _ _ _, h => by simp [chainOk] at h
  | .foreignError _ _ _, h => by simp [chainOk] at h

/-- On a chain, inspect's loop appends exactly the chain messages. -/
theorem inspectLoop_msgs_chain : ∀ e : GoErr, chainOk e = true → ∀ ins : Inspection,
    (inspectLoop ins e).msgs = ins.msgs ++ chainMsgs e
  | .baseError m st, _, ins => by
    show (inspectStep ins (.baseError m st)).msgs = _
    simp only [inspectStep, message, chainMsgs]
    split
    · rfl
    · simp
  | .errorWithMessage cause m, h, ins => by
    simp only [chainOk, Bool.and_eq_true, bne_iff_ne, ne_eq] at h
    show (inspectLoop (inspectStep ins (.errorWithMessage cause m)) cause).msgs = _
    rw [inspectLoop_msgs_chain cause h.2]
    simp only [inspectStep, message, chainMsgs]
    split
    · simp
    · simp
  | .errorWithStack cause st, h, ins => by
    show (inspectLoop (inspectStep ins (.errorWithStack cause st)) cause).msgs = _
    rw [inspectLoop_msgs_chain cause h]
    simp only [inspectStep, message, chainMsgs]
    simp
  | .errorWithTypes cause ts, h, ins => by
    show (inspectLoop (inspectStep ins (.errorWithTypes cause ts)) cause).msgs = _
    rw [inspectLoop_msgs_chain cause h]
    simp only [inspectStep, message, chainMsgs]
    simp
  | .errorWithTags cause ts, h, ins => by
    show (inspectLoop (inspectStep ins (.errorWithTags cause ts)) cause).msgs = _
    rw [inspectLoop_msgs_chain cause h]
    simp only [inspectStep, message, chainMsgs]
    simp
  | .multiError _, h, _ => by simp [chainOk] at h
  | .errorTODO, h, _ => by simp [chainOk] at h
  | .errorValue _ _ _ _ _, h, _ => by simp [chainOk] at h
  | .foreignError _ _ _, h, _ => by simp [chainOk] at h

/-- On a chain, inspect's type accumulation is the deep walk's. -/
theorem inspectLoop_types_chain : ∀ e : GoErr, chainOk e = true → ∀ ins : Inspection,
    (inspectLoop ins e).types = walkAcc appendTypes ins.types e
  | .baseError m st, _, ins => rfl
  | .errorWithMessage cause m, h, ins => by
    simp only [chainOk, Bool.and_eq_true] at h
    exact inspectLoop_types_chain cause h.2 (inspectStep ins (.errorWithMessage cause m))
  | .errorWithStack cause st, h, ins =>
    inspectLoop_types_chain cause h (inspectStep ins (.errorWithStack cause st))
  | .errorWithTypes cause ts, h, ins =>
    inspectLoop_types_chain cause h (inspectStep ins (.errorWithTypes cause ts))
  | .errorWithTags cause ts, h, ins =>
    inspectLoop_types_chain cause h (inspectStep ins (.errorWithTags cause ts))
  | .multiError _, h, _ => by simp [chainOk] at h
  | .errorTODO, h, _ => by simp [chainOk] at h
  | .errorValue _ _ _ _ _, h, _ => by simp [chainOk] at h
  | .foreignError _ _ _, h, _ => by simp [chainOk] at h

/-- On a chain, inspect's tag accumulation is the deep walk's. -/
theorem inspectLoop_tags_chain : ∀ e : GoErr, chainOk e = true → ∀ ins : Inspection,
    (inspectLoop ins e).tags = walkAcc appendTags ins.tags e
  | .baseError m st, _, ins => rfl
  | .errorWithMessage cause m, h, ins => by
    simp only [chainOk, Bool.and_eq_true] at h
    exact inspectLoop_tags_chain cause h.2 (inspectStep ins (.errorWithMessage cause m))
  | .errorWithStack cause st, h, ins =>
    inspectLoop_tags_chain cause h (inspectStep ins (.errorWithStack cause st))
  | .errorWithTypes cause ts, h, ins =>
    inspectLoop_tags_chain cause h (inspectStep ins (.errorWithTypes cause ts))
  | .errorWithTags cause ts, h, ins =>
    inspectLoop_tags_chain cause h (inspectStep ins (.errorWithTags cause ts))
  | .multiError _, h, _ => by simp [chainOk] at h
  | .errorTODO, h, _ => by simp [chainOk] at h
  | .errorValue _ _ _ _ _, h, _ => by simp [chainOk] at h
  | .foreignError _ _ _, h, _ => by simp [chainOk] at h

/-- On a chain, ValueOf's fused loop is inspect's loop followed by the Value
assembly with no causes. -/
theorem valueLoop_chain : ∀ e : GoErr, chainOk e = true → ∀ ins : Inspection,
    valueLoop ins e = valueFinish (inspectLoop ins e) []
  | .baseError m st, _, ins => rfl
  | .errorWithMessage cause m, h, ins => by
    simp only [chainOk, Bool.and_eq_true] at h
    exact valueLoop_chain cause h.2 (inspectStep ins (.errorWithMessage cause m))
  | .errorWithStack cause st, h, ins =>
    valueLoop_chain cause h (inspectStep ins (.errorWithStack cause st))
  | .errorWithTypes cause ts, h, ins =>
    valueLoop_chain cause h (inspectStep ins (.errorWithTypes cause ts))
  | .errorWithTags cause ts, h, ins =>
    valueLoop_chain cause h (inspectStep ins (.errorWithTags cause ts))
  | .multiError _, h, _ => by simp [chainOk] at h
  | .errorTODO, h, _ => by simp [chainOk] at h
  | .errorValue _ _ _ _ _, h, _ => by simp [chainOk] at h
  | .foreignError _ _ _, h, _ => by simp [chainOk] at h

/-- The dedupe loop is idempotent. -/
theorem dedupeAux_idem : ∀ (xs : List String) (x : String),
    dedupeAux x (dedupeAux x xs) = dedupeAux x xs
  | [], _ => rfl
  | y :: ys, x => by
    by_cases h : y = x
    · subst h
      simp only [dedupeAux, if_pos rfl]
      exact dedupeAux_idem ys y
    · simp only [dedupeAux, if_neg h]
      rw [dedupeAux_idem ys y]

/-- The dedupe loop yields a sublist. -/
theorem dedupeAux_sublist : ∀ (xs : List String) (x : String), (dedupeAux x xs).Sublist xs
  | [], _ => List.Sublist.refl []
  | y :: ys, x => by
    by_cases h : y = x
    · subst h
      simp only [dedupeAux, if_pos rfl]
      exact (dedupeAux_sublist ys y).trans (List.sublist_cons_self y ys)
    · simp only [dedupeAux, if_neg h]
      exact (dedupeAux_sublist ys y).cons₂ y

/-- dedupeTypes yields a sorted list. -/
theorem dedupeTypes_sorted (l : List String) : List.Sorted strRel (dedupeTypes l) := by
  have hs : List.Sorted strRel (sortTypes l) := List.sorted_insertionSort strRel l
  unfold dedupeTypes
  cases h : sortTypes l with
  | nil => simp
  | cons x xs =>
    rw [h] at hs
    exact List.Pairwise.sublist ((dedupeAux_sublist xs x).cons₂ x) hs

/-- dedupeTypes is idempotent. -/
theorem dedupeTypes_idem (l : List String) : dedupeTypes (dedupeTypes l) = dedupeTypes l := by
  have hsort : sortTypes (dedupeTypes l) = dedupeTypes l :=
    List.Sorted.insertionSort_eq (dedupeTypes_sorted l)
  have hshape : dedupeTypes l = [] ∨ ∃ x xs, dedupeTypes l = x :: dedupeAux x xs := by
    unfold dedupeTypes
    cases sortTypes l with
    | nil => exact Or.inl rfl
    | cons x xs => exact Or.inr ⟨x, xs, rfl⟩
  rcases hshape with h0 | ⟨x, xs, hx⟩
  · rw [h0]
    rfl
  · conv_lhs => rw [dedupeTypes, hsort, hx]
    show x :: dedupeAux x (dedupeAux x xs) = dedupeTypes l
    rw [dedupeAux_idem xs x, ← hx]

/-- sortTags is idempotent. -/
theorem sortTags_idem (l : List Tag) : sortTags (sortTags l) = sortTags l :=
  List.Sorted.insertionSort_eq (List.sorted_insertionSort tagRel l)

/-- appendTags always yields a sorted list. -/
theorem appendTags_sorted (acc : List Tag) (e : GoErr) :
    List.Sorted tagRel (appendTags acc e) :=
  List.sorted_insertionSort tagRel _

mutual

/-- The deep tag walk always ends sorted: appendTags sorts at every step. -/
theorem walkTags_sorted (acc : List Tag) (e : GoErr) :
    List.Sorted tagRel (walkAcc appendTags acc e) := by
  cases e with
  | baseError m st => exact appendTags_sorted acc _
  | errorTODO => exact appendTags_sorted acc _
  | errorWithMessage cause m => exact walkTags_sorted (appendTags acc _) cause
  | errorWithStack cause s => exact walkTags_sorted (appendTags acc _) cause
  | errorWithTypes cause ts => exact walkTags_sorted (appendTags acc _) cause
  | errorWithTags cause ts => exact walkTags_sorted (appendTags acc _) cause
  | multiError errors => exact walkTagsList_sorted (appendTags acc _) errors (appendTags_sorted acc _)
  | errorValue m cs ts tgs st => exact walkTagsList_sorted (appendTags acc _) cs (appendTags_sorted acc _)
  | foreignError m pr cm =>
    match cm with
    | some (some cause) => exact walkTags_sorted (appendTags acc _) cause
    | some none => exact appendTags_sorted acc _
    | none => exact appendTags_sorted acc _

/-- List version of walkTags_sorted: the walk preserves a sorted accumulator. -/
theorem walkTagsList_sorted (acc : List Tag) (l : List GoErr)
    (hacc : List.Sorted tagRel acc) :
    List.Sorted tagRel (walkAccList appendTags acc l) := by
  cases l with
  | nil => exact hacc
  | cons c rest =>
    exact walkTagsList_sorted (walkAcc appendTags acc c) rest (walkTags_sorted acc c)

end

/-- The first-write-wins fold of makeTagsMap keeps everything when tag names
are distinct (generalized over the accumulator). -/
theorem makeTagsMap_fold_nodup : ∀ (ts : List Tag) (acc : List Tag),
    (((acc ++ ts).map Tag.name).Nodup) →
    ts.foldl (fun m t => if m.any (fun u => u.name == t.name) then m else m ++ [t]) acc =
      acc ++ ts
  | [], acc, _ => by simp
  | t :: ts, acc, h => by
    have hnot : acc.any (fun u => u.name == t.name) = false := by
      rw [List.any_eq_false]
      intro u hu hbeq
      have hun : u.name = t.name := by simpa using hbeq
      rw [List.map_append, List.nodup_append] at h
      exact h.2.2 (List.mem_map_of_mem Tag.name hu)
        (by rw [hun]; exact List.mem_map_of_mem Tag.name (List.mem_cons_self t ts))
    rw [List.foldl_cons]
    rw [if_neg (by rw [hnot]; exact Bool.false_ne_true)]
    have h2 : (((acc ++ [t]) ++ ts).map Tag.name).Nodup := by
      rw [List.append_assoc]
      simpa using h
    rw [makeTagsMap_fold_nodup ts (acc ++ [t]) h2]
    simp

/-- makeTagsMap is the identity on lists with distinct tag names. -/
theorem makeTagsMap_eq_self (ts : List Tag) (h : (ts.map Tag.name).Nodup) :
    makeTagsMap ts = ts := by
  have := makeTagsMap_fold_nodup ts [] (by simpa using h)
  simpa [makeTagsMap] using this

/-- C4 amended: for every error built from the wrapping constructors as a
single-cause chain (no multi-cause node), with non-empty newline-free
messages and pairwise-distinct aggregated tag names, the reconstruction
r = ValueOf(e).Err() satisfies r.Error() == e.Error(),
Types(r) == Types(e) and Tags(r) == Tags(e), and r carries exactly the
freshly captured stack trace, non-empty whenever the capture is.
(A multi-cause node loses its causes' messages from r.Error(), an empty
wrapper message changes the rendered string, and duplicate tag names
collapse in the snapshot's tag map — see the counterexample.) -/
theorem claim_C4_value_roundtrip (e : GoErr) (fresh : StackTrace)
    (hchain : chainOk e = true)
    (hnames : ((Tags (some e)).map Tag.name).Nodup)
    (hfresh : fresh ≠ []) :
    ∃ r : GoErr, (ValueOf (some e)).Err fresh = some r ∧
      r.Error = e.Error ∧
      Types (some r) = Types (some e) ∧
      Tags (some r) = Tags (some e) ∧
      stackTrace r = fresh ∧ stackTrace r ≠ [] := by
  obtain ⟨hmsgE, m0, rest, hms, hm0⟩ := chainMsgs_error e hchain
  have hImsgs : (inspectLoop emptyIns e).msgs = chainMsgs e :=
    inspectLoop_msgs_chain e hchain emptyIns
  have hItypes : (inspectLoop emptyIns e).types = walkAcc appendTypes [] e :=
    inspectLoop_types_chain e hchain emptyIns
  have hItags : (inspectLoop emptyIns e).tags = walkAcc appendTags [] e :=
    inspectLoop_tags_chain e hchain emptyIns
  have hW : Tags (some e) = walkAcc appendTags [] e := rfl
  have hWsorted : List.Sorted tagRel (walkAcc appendTags [] e) := walkTags_sorted [] e
  have hsortW : sortTags (walkAcc appendTags [] e) = walkAcc appendTags [] e :=
    List.Sorted.insertionSort_eq hWsorted
  have hmap : makeTagsMap (walkAcc appendTags [] e) = walkAcc appendTags [] e := by
    refine makeTagsMap_eq_self _ ?_
    rw [← hW]
    exact hnames
  have hMne : String.intercalate ": " (inspectLoop emptyIns e).msgs ≠ "" := by
    rw [hImsgs, hms]
    cases rest with
    | nil =>
      show m0 ≠ ""
      intro h0
      rw [h0] at hm0
      exact hm0 rfl
    | cons b l =>
      rw [intercalate_cons_cons]
      refine append_ne_empty_left (m0 ++ ": ") _ ?_
      rw [String.length_append]
      have h2 : (": ").length = 2 := rfl
      omega
  have hVal : ValueOf (some e) = valueFinish (inspectLoop emptyIns e) [] :=
    valueLoop_chain e hchain emptyIns
  have hbeq : (String.intercalate ": " (inspectLoop emptyIns e).msgs == "") = false := by
    rw [beq_eq_false_iff_ne]
    exact hMne
  refine ⟨.errorValue (String.intercalate ": " (inspectLoop emptyIns e).msgs) []
      (dedupeTypes (inspectLoop emptyIns e).types)
      (sortTags (makeTagsMap (sortTags (inspectLoop emptyIns e).tags))) fresh,
    ?_, ?_, ?_, ?_, rfl, hfresh⟩
  · rw [hVal]
    show Value.Err fresh (.mk (String.intercalate ": " (inspectLoop emptyIns e).msgs)
      (makeTagsMap (sortTags (inspectLoop emptyIns e).tags))
      (dedupeTypes (inspectLoop emptyIns e).types)
      (stackStrings (inspectLoop emptyIns e).stackTraces) []) = _
    have hnil : (Value.mk (String.intercalate ": " (inspectLoop emptyIns e).msgs)
        (makeTagsMap (sortTags (inspectLoop emptyIns e).tags))
        (dedupeTypes (inspectLoop emptyIns e).types)
        (stackStrings (inspectLoop emptyIns e).stackTraces) []).IsNil = false := by
      simp only [Value.IsNil, Value.Message, Value.Tags, Value.Types, Value.Stack,
        Value.Causes, hbeq, Bool.false_and]
    rw [Value.Err, if_neg (by rw [hnil]; exact Bool.false_ne_true)]
    rfl
  · show String.intercalate ": " (inspectLoop emptyIns e).msgs = e.Error
    rw [hImsgs]
    exact hmsgE
  · show dedupeTypes (appendTypes [] (.errorValue
      (String.intercalate ": " (inspectLoop emptyIns e).msgs) []
      (dedupeTypes (inspectLoop emptyIns e).types)
      (sortTags (makeTagsMap (sortTags (inspectLoop emptyIns e).tags))) fresh)) =
      dedupeTypes (walkAcc appendTypes [] e)
    simp only [appendTypes, typesMethod, truePredNames, Option.getD_some, List.append_nil,
      List.nil_append]
    rw [dedupeTypes_idem, hItypes]
  · show appendTags [] (.errorValue
      (String.intercalate ": " (inspectLoop emptyIns e).msgs) []
      (dedupeTypes (inspectLoop emptyIns e).types)
      (sortTags (makeTagsMap (sortTags (inspectLoop emptyIns e).tags))) fresh) =
      walkAcc appendTags [] e
    simp only [appendTags, tagsMethod, Option.getD_some, List.nil_append]
    rw [sortTags_idem, hItags, hsortW, hmap]
    exact hsortW

/-- Witness for C4 at a concrete chain and capture. -/
theorem claim_C4_value_roundtrip_witness :
    ∃ r : GoErr, (ValueOf (some sampleChain)).Err sampleFresh = some r ∧
      r.Error = sampleChain.Error ∧
      Types (some r) = Types (some sampleChain) ∧
      Tags (some r) = Tags (some sampleChain) ∧
      stackTrace r = sampleFresh ∧ stackTrace r ≠ [] :=
  claim_C4_value_roundtrip sampleChain sampleFresh (by decide) (by decide) (by decide)

/-- C4 counterexample, three failures of the claim as stated, each at a
concrete constructor-built error with newline-free messages: a Join error
reconstructs with message "" instead of "A; B"; duplicate tag names within
one chain collapse to the first (smallest) value in the reconstruction; an
empty wrapper message renders ": a" before the trip and "a" after. -/
theorem claim_C4_counterexample :
    ((ValueOf (Join [] [some (New "A" [⟨"a.go", 1, "p.F"⟩]),
        some (New "B" [⟨"a.go", 2, "p.F"⟩])])).Err
      [⟨"c.go", 3, "p.H"⟩]).map GoErr.Error = some "" ∧
    (Join [] [some (New "A" [⟨"a.go", 1, "p.F"⟩]),
      some (New "B" [⟨"a.go", 2, "p.F"⟩])]).map GoErr.Error = some "A; B" ∧
    (WithTags [] (WithTags [] (some (New "m" [⟨"a.go", 1, "p.F"⟩])) [T "x" "1"])
      [T "x" "2"]).map (fun w => Tags (some w)) = some [T "x" "1", T "x" "2"] ∧
    ((WithTags [] (WithTags [] (some (New "m" [⟨"a.go", 1, "p.F"⟩])) [T "x" "1"])
        [T "x" "2"]).bind (fun w => (ValueOf (some w)).Err [⟨"c.go", 3, "p.H"⟩])).map
      (fun r => Tags (some r)) = some [T "x" "1"] ∧
    (WithMessage [] (some (New "a" [⟨"a.go", 1, "p.F"⟩])) "").map GoErr.Error = some ": a" ∧
    ((WithMessage [] (some (New "a" [⟨"a.go", 1, "p.F"⟩])) "").bind
      (fun w => (ValueOf (some w)).Err [⟨"c.go", 3, "p.H"⟩])).map GoErr.Error = some "a" :=
  ⟨rfl, rfl, by decide, by decide, rfl, rfl⟩

/-- C7 amended: in the tree rendering, every non-last child's first line is
prefixed with "├── " and its continuation lines with "|   " — the ASCII
vertical bar of format.go's indent.nextLine, not the box-drawing "│   " the
claim states — and the last child uses "└── " with "    " continuation: a
3-child Multi node renders three branches with connectors ├──, ├──, └── in
that order, a nested pair of children under a non-last branch is continued
with "|   ", and under the last branch with "    ". -/
theorem claim_C7_tree_connectors (a b c : String)
    (ha1 : a.length ≠ 0) (ha2 : splitLines a = [a])
    (hb1 : b.length ≠ 0) (hb2 : splitLines b = [b])
    (hc1 : c.length ≠ 0) (hc2 : splitLines c = [c]) :
    formatV (.multiError [.baseError a [], .baseError b [], .baseError c []]) =
      ".\n├── " ++ a ++ "\n├── " ++ b ++ "\n└── " ++ c ∧
    formatV (.multiError [.multiError [.baseError a [], .baseError b []],
        .baseError c []]) =
      ".\n├── .\n|   ├── " ++ a ++ "\n|   └── " ++ b ++ "\n└── " ++ c ∧
    formatV (.multiError [.baseError c [],
        .multiError [.baseError a [], .baseError b []]]) =
      ".\n├── " ++ c ++ "\n└── .\n    ├── " ++ a ++ "\n    └── " ++ b := by
  refine ⟨?_, ?_, ?_⟩ <;>
  · refine String.ext ?_
    simp [formatV, fmtLoop, fmtList, fmtNode, writeNode, writeLines, writeNewLine,
      writeString, writeIndent, inspectStep, message, stackTrace, appendTypes, appendTags,
      typesMethod, tagsMethod, truePredNames, typesSuffix, tagsSuffix, Indent.push,
      Indent.pop, Indent.set, Indent.nextNode, Indent.nextLine, FmtCtx.last, emptyIns,
      sortTags, dedupeTypes, sortTypes, ha1, hb1, hc1, ha2, hb2, hc2, String.intercalate,
      String.intercalate.go, String.data_append, List.insertionSort, String.join]

/-- Witness for C7 at concrete leaf messages. -/
theorem claim_C7_tree_connectors_witness :
    formatV (.multiError [.baseError "A" [], .baseError "B" [], .baseError "C" []]) =
      ".\n├── " ++ "A" ++ "\n├── " ++ "B" ++ "\n└── " ++ "C" ∧
    formatV (.multiError [.multiError [.baseError "A" [], .baseError "B" []],
        .baseError "C" []]) =
      ".\n├── .\n|   ├── " ++ "A" ++ "\n|   └── " ++ "B" ++ "\n└── " ++ "C" ∧
    formatV (.multiError [.baseError "C" [],
        .multiError [.baseError "A" [], .baseError "B" []]]) =
      ".\n├── " ++ "C" ++ "\n└── .\n    ├── " ++ "A" ++ "\n    └── " ++ "B" :=
  claim_C7_tree_connectors "A" "B" "C" (by decide) (by decide) (by decide) (by decide)
    (by decide) (by decide)

/-- C7 counterexample: the continuation prefix of a non-last branch is the
ASCII "|   ", not the box-drawing "│   " the claim states — the rendering of
a nested 2+1 Multi error contains no box-drawing vertical bar at all. -/
theorem claim_C7_counterexample :
    formatV (.multiError [.multiError [.baseError "a" [], .baseError "b" []],
      .baseError "c" []]) = ".\n├── .\n|   ├── a\n|   └── b\n└── c" ∧
    (formatV (.multiError [.multiError [.baseError "a" [], .baseError "b" []],
      .baseError "c" []])).data.contains '│' = false :=
  ⟨rfl, by decide⟩

end ErrorsGo
